import Mathlib

/-!
# Verification of the AdVantage ingestion core

Shallow embedding of the Beeswax DSP log ingestion engine
(`ParseBeeswaxLog` in `backend/internal/ingestion` and the result store in
`backend/internal/ingestion/log_processor.go`), with theorems settling the
frozen claims about it.

Modelling conventions:
* The CSV input stream is modelled after tokenization: a list of records
  (each a list of string cells), header first.  Go's `encoding/csv` reader
  fixes `FieldsPerRecord` from the header and returns `ErrFieldCount` for any
  later record whose cell count differs; `ParseBeeswaxLog` treats every
  non-EOF read error as fatal.  That field-count check is modelled
  explicitly; CSV quoting/escaping is not (records are given pre-split).
* Go `float64` currency/ratio arithmetic is modelled by exact rationals `ℚ`.
* Go machine-integer counters are modelled by unbounded `Int`; none of the
  claims depends on 64-bit wrap-around.
* Go maps are modelled as association lists; Go map iteration order is
  unspecified, the model iterates in insertion order.  No claim depends on
  the order, and schema-resolution success/failure is order-independent.
-/

/-- Calendar timestamp as produced by Go `time.Parse` on the two layouts used
by `ParseBeeswaxLog` (always UTC, so the wall-clock tuple determines the
instant). -/
structure GoTime where
  year : Nat
  month : Nat
  day : Nat
  hour : Nat
  minute : Nat
  second : Nat
  nanos : Nat
deriving DecidableEq, Repr

/-- The zero value of Go `time.Time`: January 1, year 1, 00:00:00 UTC. -/
def zeroGoTime : GoTime := ⟨1, 1, 1, 0, 0, 0, 0⟩

/-- Field tuple of a timestamp, most significant first. -/
def GoTime.fields (t : GoTime) : List Nat :=
  [t.year, t.month, t.day, t.hour, t.minute, t.second, t.nanos]

/-- Lexicographic strict order on equal-length `Nat` lists; chronological
order on valid timestamp tuples. -/
def natListLt : List Nat → List Nat → Bool
  | _, [] => false
  | [], _ :: _ => true
  | a :: as, b :: bs => decide (a < b) || (a == b && natListLt as bs)

/-- Go `t.Before(u)` for UTC wall-clock times. -/
def goBefore (t u : GoTime) : Bool := natListLt t.fields u.fields

/-- Go `t.After(u)` for UTC wall-clock times. -/
def goAfter (t u : GoTime) : Bool := natListLt u.fields t.fields

/-- Go `t.IsZero()`. -/
def GoTime.isZero (t : GoTime) : Bool := decide (t = zeroGoTime)

/-- Value of an ASCII decimal digit, `none` for any other character
(Go `isDigit`, `'0'..'9'` only). -/
def digitVal (c : Char) : Option Nat :=
  if c.isDigit then some (c.toNat - 48) else none

/-- Exactly two decimal digits (Go `getnum` with `fixed = true`). -/
def num2 : List Char → Option (Nat × List Char)
  | a :: b :: rest => do
    pure (10 * (← digitVal a) + (← digitVal b), rest)
  | _ => none

/-- Exactly four decimal digits (Go long-year chunk `2006`). -/
def num4 : List Char → Option (Nat × List Char)
  | a :: b :: c :: d :: rest => do
    pure (1000 * (← digitVal a) + 100 * (← digitVal b) +
      10 * (← digitVal c) + (← digitVal d), rest)
  | _ => none

/-- One or two decimal digits (Go `getnum` with `fixed = false`, used for the
hour chunk `15`). -/
def num1or2 : List Char → Option (Nat × List Char)
  | [] => none
  | a :: rest =>
    match digitVal a with
    | none => none
    | some x =>
      match rest with
      | b :: rest2 =>
        match digitVal b with
        | some y => some (10 * x + y, rest2)
        | none => some (x, rest)
      | [] => some (x, [])

/-- Consume one expected literal layout character. -/
def expectChar (c : Char) : List Char → Option (List Char)
  | a :: rest => if a = c then some rest else none
  | [] => none

/-- Go `commaOrPeriod`: the decimal separator of a fractional second. -/
def commaOrPeriod (c : Char) : Bool := c = '.' || c = ','

/-- Value of a digit run read most-significant first. -/
def digitsVal (ds : List Char) : Nat :=
  ds.foldl (fun acc c => 10 * acc + (c.toNat - 48)) 0

/-- Go leap-year rule. -/
def isLeapYear (y : Nat) : Bool :=
  y % 4 == 0 && (y % 100 != 0 || y % 400 == 0)

/-- Go `daysIn` (days of `month` in `year`); only consulted for months
1..12. -/
def daysIn (month year : Nat) : Nat :=
  if month = 2 then (if isLeapYear year then 29 else 28)
  else if month = 4 ∨ month = 6 ∨ month = 9 ∨ month = 11 then 30
  else 31

/-- The range validation Go `time.Parse` applies to the parsed fields. -/
def validDateTime (t : GoTime) : Bool :=
  1 ≤ t.month && t.month ≤ 12 && 1 ≤ t.day && t.day ≤ daysIn t.month t.year &&
    t.hour < 24 && t.minute < 60 && t.second < 60

/-- Shared date-time core `YYYY-MM-DD H[H]:MM:SS` of both accepted layouts
(zero-padded month/day/minute/second; the hour chunk `15` accepts one or two
digits). -/
def dateTimeCore (cs : List Char) : Option (GoTime × List Char) := do
  let (y, cs1) ← num4 cs
  let cs2 ← expectChar '-' cs1
  let (mo, cs3) ← num2 cs2
  let cs4 ← expectChar '-' cs3
  let (d, cs5) ← num2 cs4
  let cs6 ← expectChar ' ' cs5
  let (h, cs7) ← num1or2 cs6
  let cs8 ← expectChar ':' cs7
  let (mi, cs9) ← num2 cs8
  let cs10 ← expectChar ':' cs9
  let (sec, cs11) ← num2 cs10
  pure (⟨y, mo, d, h, mi, sec, 0⟩, cs11)

/-- Go `time.Parse` with layout `"2006-01-02 15:04:05.000"`: the date-time
core followed by a decimal separator and exactly three fractional digits
(`stdFracSecond0`, milliseconds), then end of input, then range
validation. -/
def parseLayoutMillis (s : String) : Option GoTime := do
  let (t, rest) ← dateTimeCore s.data
  match rest with
  | p :: a :: b :: c :: rest2 =>
    if commaOrPeriod p then do
      let ms := 100 * (← digitVal a) + 10 * (← digitVal b) + (← digitVal c)
      match rest2 with
      | [] =>
        let t2 : GoTime := { t with nanos := ms * 1000000 }
        if validDateTime t2 then some t2 else none
      | _ => none
    else none
  | _ => none

/-- Go `time.Parse` with layout `"2006-01-02 15:04:05"`: the date-time core,
then either end of input or — Go's special case for a fractional second
present in the value but absent from the layout — a decimal separator and a
maximal run of digits, then end of input, then range validation.  As in Go
1.23's `parseNanoseconds`, the whole run is consumed but only its first nine
digits contribute (longer runs are truncated, not rejected). -/
def parseLayoutPlain (s : String) : Option GoTime := do
  let (t, rest) ← dateTimeCore s.data
  match rest with
  | [] => if validDateTime t then some t else none
  | p :: d :: rest2 =>
    if commaOrPeriod p && d.isDigit then
      let ds := (d :: rest2).takeWhile Char.isDigit
      let rest3 := (d :: rest2).dropWhile Char.isDigit
      if rest3 = [] then
        let t2 : GoTime := { t with
          nanos := digitsVal (ds.take 9) * 10 ^ (9 - min ds.length 9) }
        if validDateTime t2 then some t2 else none
      else none
    else none
  | _ => none

/-- The `BID_TIME` cascade of `ParseBeeswaxLog`: empty cell keeps the zero
`time.Time`; otherwise the millisecond layout is tried first and the plain
layout second; a failure of both leaves the zero value (the Go code only
prints a diagnostic). -/
def parseBidTimeString (s : String) : GoTime :=
  if s = "" then zeroGoTime
  else
    match parseLayoutMillis s with
    | some t => t
    | none =>
      match parseLayoutPlain s with
      | some t => t
      | none => zeroGoTime

/-- Whether `s` is a syntactically valid signed base-10 integer numeral for
Go `strconv.ParseInt(s, 10, 64)`: an optional sign followed by a non-empty
run of ASCII digits. -/
def isValidInt64Syntax (s : String) : Bool :=
  match s.data with
  | [] => false
  | c :: rest =>
    let ds := if c = '+' ∨ c = '-' then rest else c :: rest
    !ds.isEmpty && ds.all Char.isDigit

/-- The value `ParseBeeswaxLog` uses from `v, _ := strconv.ParseInt(s, 10, 64)`
(and likewise `strconv.Atoi` on a 64-bit platform): `0` on a syntax error,
the exact value when it fits in `int64`, and the clamped bound
`±2^63` / `2^63 − 1` on a range error. -/
def parseInt64 (s : String) : Int :=
  match s.data with
  | [] => 0
  | c :: rest =>
    let neg := c = '-'
    let ds := if c = '+' ∨ c = '-' then rest else c :: rest
    if ds.isEmpty || !ds.all Char.isDigit then 0
    else
      let n : Nat := digitsVal ds
      if neg then (if 2 ^ 63 < n then -(2 ^ 63) else -(n : Int))
      else (if 2 ^ 63 ≤ n then 2 ^ 63 - 1 else (n : Int))

/-- Association-list model of a Go map: value at a key. -/
def amFind {α : Type} (m : List (String × α)) (k : String) : Option α :=
  (m.find? (fun p => p.1 == k)).map (fun p => p.2)

/-- Association-list model of a Go map: `m[k] = v` (replace an existing
binding, otherwise add one). -/
def amSet {α : Type} (m : List (String × α)) (k : String) (v : α) :
    List (String × α) :=
  if (m.find? (fun p => p.1 == k)).isSome then
    m.map (fun p => if p.1 == k then (k, v) else p)
  else m ++ [(k, v)]

/-- Go `m[k]++` on a `map[string]int` (absent key reads as `0`). -/
def amBump (m : List (String × Int)) (k : String) : List (String × Int) :=
  amSet m k ((amFind m k).getD 0 + 1)

/-- `CampaignMetrics` of the source (Go `float64` fields modelled as `ℚ`). -/
structure CampaignMetrics where
  impressions : Int
  clicks : Int
  conversions : Int
  spend : ℚ
  ctr : ℚ
deriving DecidableEq, Repr

/-- The zero Go value of `CampaignMetrics`, read from the map for an absent
campaign key. -/
def zeroCampaignMetrics : CampaignMetrics := ⟨0, 0, 0, 0, 0⟩

/-- `BeeswaxLogSummary` of the source.  `TimeRange [2]time.Time` is split
into `timeRange0`/`timeRange1`; Go `float64` fields are modelled as `ℚ`,
Go maps as association lists. -/
structure BeeswaxLogSummary where
  totalRecords : Int
  totalImpressions : Int
  totalClicks : Int
  totalConversions : Int
  totalBidAmount : ℚ
  totalWinCost : ℚ
  ctr : ℚ
  averageBidPrice : ℚ
  averageWinRate : ℚ
  timeRange0 : GoTime
  timeRange1 : GoTime
  deviceBreakdown : List (String × Int)
  browserBreakdown : List (String × Int)
  osBreakdown : List (String × Int)
  geoBreakdown : List (String × Int)
  hourlyBreakdown : List (String × Int)
  domainBreakdown : List (String × Int)
  campaignPerformance : List (String × CampaignMetrics)
deriving DecidableEq, Repr

/-- The summary as initialized by `ParseBeeswaxLog` before the row loop:
empty maps, zero totals, and the sentinel time range
`[9999-01-01, 1970-01-01]`. -/
def initSummary : BeeswaxLogSummary where
  totalRecords := 0
  totalImpressions := 0
  totalClicks := 0
  totalConversions := 0
  totalBidAmount := 0
  totalWinCost := 0
  ctr := 0
  averageBidPrice := 0
  averageWinRate := 0
  timeRange0 := ⟨9999, 1, 1, 0, 0, 0, 0⟩
  timeRange1 := ⟨1970, 1, 1, 0, 0, 0, 0⟩
  deviceBreakdown := []
  browserBreakdown := []
  osBreakdown := []
  geoBreakdown := []
  hourlyBreakdown := []
  domainBreakdown := []
  campaignPerformance := []

/-- The column-name-to-index map, `ColMap` for short. -/
abbrev ColMap : Type := List (String × Nat)

/-- The for-range loop `for i, col := range header { colMap[col] = i }`. -/
def buildColMapAux : Nat → List String → ColMap → ColMap
  | _, [], m => m
  | i, c :: cs, m => buildColMapAux (i + 1) cs (amSet m c i)

/-- The column map built from the header row (a duplicated header name keeps
the last index, as in a Go map assignment loop). -/
def buildColMap (header : List String) : ColMap :=
  buildColMapAux 0 header []

/-- The 16 required columns of `ParseBeeswaxLog`, in source order. -/
def requiredCols : List String :=
  ["ACCOUNT_ID", "AUCTION_ID", "BID_PRICE_MICROS_USD", "BID_TIME",
   "CAMPAIGN_ID", "CLEARING_PRICE_MICROS_USD", "CLICKS", "CONVERSIONS",
   "CREATIVE_ID", "DOMAIN", "GEO_COUNTRY", "GEO_CITY",
   "PLATFORM_DEVICE_TYPE", "PLATFORM_BROWSER", "PLATFORM_OS",
   "WIN_COST_MICROS_USD"]

/-- ASCII upper-casing, the fragment of Go `strings.ToUpper` relevant to the
all-ASCII canonical column names and their case variants (Unicode-only
special casings such as `ı → I` are not modelled). -/
def asciiUpper (s : String) : String := String.mk (s.data.map Char.toUpper)

/-- ASCII lower-casing, used only to build concrete letter-case-variant
headers in witness statements. -/
def asciiLower (s : String) : String := String.mk (s.data.map Char.toLower)

/-- The required-column validation loop: each canonical column must be
present exactly, or else some observed header key must match it
case-insensitively, in which case the canonical name is aliased to that
key's index; otherwise the parse fails naming the missing column. -/
def resolveRequired (cm : ColMap) : List String → Except String ColMap
  | [] => .ok cm
  | c :: cs =>
    match amFind cm c with
    | some _ => resolveRequired cm cs
    | none =>
      match cm.find? (fun p => asciiUpper p.1 == c) with
      | some p => resolveRequired (amSet cm c p.2) cs
      | none => .error c

/-- Schema resolution: build the column map from the header and validate the
required columns. -/
def resolveColumns (header : List String) : Except String ColMap :=
  resolveRequired (buildColMap header) requiredCols

/-- `getValueSafely` of the source: absent column or out-of-range index
yields the empty string. -/
def getValueSafely (cm : ColMap) (record : List String) (colName : String) :
    String :=
  match amFind cm colName with
  | none => ""
  | some idx => record.getD idx ""

/-- The bid timestamp decoded from a row. -/
def rowBidTime (cm : ColMap) (record : List String) : GoTime :=
  parseBidTimeString (getValueSafely cm record "BID_TIME")

/-- Go hour-key formatting `bidTime.Format("2006-01-02 15")`:
zero-padded decimal fields. -/
def padNum (w n : Nat) : String :=
  let s := toString n
  String.mk (List.replicate (w - s.length) '0') ++ s

/-- The hourly-breakdown key of a timestamp. -/
def hourKey (t : GoTime) : String :=
  padNum 4 t.year ++ "-" ++ padNum 2 t.month ++ "-" ++ padNum 2 t.day ++
    " " ++ padNum 2 t.hour

/-- Time-dependent updates of the row loop: when the decoded bid time is
non-zero, update the time-range bounds by strict `Before`/`After` comparison
and increment the hourly bucket of the hour-truncated key. -/
def updateTime (cm : ColMap) (record : List String) (s : BeeswaxLogSummary) :
    BeeswaxLogSummary :=
  let bidTime := rowBidTime cm record
  if bidTime.isZero then s
  else
    let s1 := if goBefore bidTime s.timeRange0 then
      { s with timeRange0 := bidTime } else s
    let s2 := if goAfter bidTime s1.timeRange1 then
      { s1 with timeRange1 := bidTime } else s1
    { s2 with hourlyBreakdown := amBump s2.hourlyBreakdown (hourKey bidTime) }

/-- Unconditional scalar updates of the row loop: records, impressions,
clicks, conversions, and the micro-unit amounts divided by 1,000,000. -/
def updateTotals (cm : ColMap) (record : List String) (s : BeeswaxLogSummary) :
    BeeswaxLogSummary :=
  let bidPrice := parseInt64 (getValueSafely cm record "BID_PRICE_MICROS_USD")
  let winCost := parseInt64 (getValueSafely cm record "WIN_COST_MICROS_USD")
  let clicks := parseInt64 (getValueSafely cm record "CLICKS")
  let conversions := parseInt64 (getValueSafely cm record "CONVERSIONS")
  { s with
    totalRecords := s.totalRecords + 1
    totalImpressions := s.totalImpressions + 1
    totalClicks := s.totalClicks + clicks
    totalConversions := s.totalConversions + conversions
    totalBidAmount := s.totalBidAmount + (bidPrice : ℚ) / 1000000
    totalWinCost := s.totalWinCost + (winCost : ℚ) / 1000000 }

/-- Categorical breakdown updates of the row loop: each non-empty value
increments its bucket. -/
def updateBreakdowns (cm : ColMap) (record : List String)
    (s : BeeswaxLogSummary) : BeeswaxLogSummary :=
  let deviceType := getValueSafely cm record "PLATFORM_DEVICE_TYPE"
  let browser := getValueSafely cm record "PLATFORM_BROWSER"
  let os := getValueSafely cm record "PLATFORM_OS"
  let country := getValueSafely cm record "GEO_COUNTRY"
  let domain := getValueSafely cm record "DOMAIN"
  let s1 := if deviceType ≠ "" then
    { s with deviceBreakdown := amBump s.deviceBreakdown deviceType } else s
  let s2 := if browser ≠ "" then
    { s1 with browserBreakdown := amBump s1.browserBreakdown browser } else s1
  let s3 := if os ≠ "" then
    { s2 with osBreakdown := amBump s2.osBreakdown os } else s2
  let s4 := if country ≠ "" then
    { s3 with geoBreakdown := amBump s3.geoBreakdown country } else s3
  if domain ≠ "" then
    { s4 with domainBreakdown := amBump s4.domainBreakdown domain } else s4

/-- Campaign-performance update of the row loop: for a non-empty campaign id,
fetch-or-create the metrics entry and add this row's impression, clicks,
conversions and win-cost spend. -/
def updateCampaign (cm : ColMap) (record : List String)
    (s : BeeswaxLogSummary) : BeeswaxLogSummary :=
  let campaignID := getValueSafely cm record "CAMPAIGN_ID"
  let clicks := parseInt64 (getValueSafely cm record "CLICKS")
  let conversions := parseInt64 (getValueSafely cm record "CONVERSIONS")
  let winCost := parseInt64 (getValueSafely cm record "WIN_COST_MICROS_USD")
  if campaignID ≠ "" then
    let c0 := (amFind s.campaignPerformance campaignID).getD zeroCampaignMetrics
    let c1 := { c0 with
      impressions := c0.impressions + 1
      clicks := c0.clicks + clicks
      conversions := c0.conversions + conversions
      spend := c0.spend + (winCost : ℚ) / 1000000 }
    { s with campaignPerformance := amSet s.campaignPerformance campaignID c1 }
  else s

/-- One iteration of the row loop of `ParseBeeswaxLog`, in source order:
time handling, scalar totals, categorical breakdowns, campaign metrics. -/
def processRow (cm : ColMap) (record : List String) (s : BeeswaxLogSummary) :
    BeeswaxLogSummary :=
  updateCampaign cm record
    (updateBreakdowns cm record (updateTotals cm record (updateTime cm record s)))

/-- The pure aggregation fold over already-accepted records. -/
def aggRows (cm : ColMap) (rows : List (List String))
    (s : BeeswaxLogSummary) : BeeswaxLogSummary :=
  rows.foldl (fun acc r => processRow cm r acc) s

/-- The row-reading loop: Go's CSV reader returns `ErrFieldCount` for a
record whose cell count differs from the header's, which `ParseBeeswaxLog`
turns into a fatal `error reading record`. -/
def foldRows (n : Nat) (cm : ColMap) :
    List (List String) → BeeswaxLogSummary → Except String BeeswaxLogSummary
  | [], s => .ok s
  | r :: rs, s =>
    if r.length = n then foldRows n cm rs (processRow cm r s)
    else .error "error reading record"

/-- The finalizer: derived metrics computed once after the stream is
exhausted, each behind its zero-denominator guard, and the per-campaign CTR
pass. -/
def finalize (s : BeeswaxLogSummary) : BeeswaxLogSummary :=
  let s1 := if s.totalRecords > 0 then
    { s with averageBidPrice := s.totalBidAmount / (s.totalRecords : ℚ) }
    else s
  let s2 := if s1.totalImpressions > 0 then
    { s1 with ctr := (s1.totalClicks : ℚ) / (s1.totalImpressions : ℚ) * 100 }
    else s1
  let s3 := if s2.totalRecords > 0 then
    { s2 with averageWinRate :=
        (s2.totalImpressions : ℚ) / (s2.totalRecords : ℚ) * 100 }
    else s2
  { s3 with campaignPerformance := s3.campaignPerformance.map (fun p =>
      if p.2.impressions > 0 then
        (p.1, { p.2 with ctr := (p.2.clicks : ℚ) / (p.2.impressions : ℚ) * 100 })
      else p) }

/-- `ParseBeeswaxLog`: read the header (EOF on an empty stream is fatal),
resolve the schema, fold the rows, finalize. -/
def ParseBeeswaxLog : List (List String) → Except String BeeswaxLogSummary
  | [] => .error "failed to read header"
  | header :: rows =>
    match resolveColumns header with
    | .error col => .error ("required column not found: " ++ col)
    | .ok cm =>
      match foldRows header.length cm rows initSummary with
      | .error e => .error e
      | .ok s => .ok (finalize s)

/-- This row's contribution to the total bid amount: bid price micros over
1,000,000. -/
def rowBid (cm : ColMap) (record : List String) : ℚ :=
  (parseInt64 (getValueSafely cm record "BID_PRICE_MICROS_USD") : ℚ) / 1000000

/-- This row's contribution to the total win cost: win cost micros over
1,000,000. -/
def rowWin (cm : ColMap) (record : List String) : ℚ :=
  (parseInt64 (getValueSafely cm record "WIN_COST_MICROS_USD") : ℚ) / 1000000

/-- The metrics entry written for this row's campaign. -/
def rowCampaignMetrics (cm : ColMap) (r : List String)
    (s : BeeswaxLogSummary) : CampaignMetrics :=
  let c0 := (amFind s.campaignPerformance
    (getValueSafely cm r "CAMPAIGN_ID")).getD zeroCampaignMetrics
  { c0 with
    impressions := c0.impressions + 1
    clicks := c0.clicks + parseInt64 (getValueSafely cm r "CLICKS")
    conversions := c0.conversions + parseInt64 (getValueSafely cm r "CONVERSIONS")
    spend := c0.spend + rowWin cm r }

/-- `header missing column c under both matching policies`: no header token
matches `c` exactly nor case-insensitively. -/
abbrev missingBoth (header : List String) (c : String) : Prop :=
  ∀ t ∈ header, t ≠ c ∧ asciiUpper t ≠ c

/-- A 16-cell data row that is empty except for its `BID_TIME` cell, laid
out for the canonical header (`requiredCols` used as header row). -/
def timeRow (ts : String) : List String :=
  ["", "", "", ts, "", "", "", "", "", "", "", "", "", "", "", ""]

/-- The resolved column map of the canonical header (the 16 required
columns in source order). -/
def canonColMap : ColMap := buildColMap requiredCols

/-- A 16-cell data row that is empty except for campaign id `c1`, laid out
for the canonical header. -/
def campaignRow : List String :=
  ["", "", "", "", "c1", "", "", "", "", "", "", "", "", "", "", ""]

/-- `LogAnalysisResult` of `log_processor.go` (the `interface{}` summary
payload holds the parsed `BeeswaxLogSummary`; `ProcessedAt` is modelled as a
caller-supplied timestamp). -/
structure LogAnalysisResult where
  fileID : String
  userID : String
  fileName : String
  processedAt : GoTime
  summary : BeeswaxLogSummary
  status : String
  errorMessage : String
deriving DecidableEq

/-- The on-disk report store, modelled as path ↦ stored result.  JSON
serialization is modelled as the identity on the stored record (Go
`encoding/json` round-trip fidelity is assumed); `os.WriteFile` truncates,
i.e. overwrites the binding at a path. -/
abbrev FileStore : Type := List (String × LogAnalysisResult)

/-- `filepath.Join(basePath, "reports", userID, fileID+"_analysis.json")`,
modelled as `/`-joining of clean non-empty components. -/
def resultsPath (basePath userID fileID : String) : String :=
  basePath ++ "/reports/" ++ userID ++ "/" ++ fileID ++ "_analysis.json"

/-- `storeAnalysisResult`: serialize the result and write it at the
per-(user, file) report path (`MkdirAll` has no observable effect in the
path ↦ value model). -/
def storeAnalysisResult (fs : FileStore) (basePath : String)
    (result : LogAnalysisResult) (userID fileID : String) : FileStore :=
  amSet fs (resultsPath basePath userID fileID) result

/-- `GetAnalysisResult`: read and deserialize the stored result, `none` when
the report file does not exist. -/
def GetAnalysisResult (fs : FileStore) (basePath fileID userID : String) :
    Option LogAnalysisResult :=
  amFind fs (resultsPath basePath userID fileID)

/-- `IsLogFileProcessed`: an `os.Stat` existence check on the report path,
never reading the stored bytes. -/
def IsLogFileProcessed (fs : FileStore) (basePath fileID userID : String) :
    Bool :=
  (amFind fs (resultsPath basePath userID fileID)).isSome

/-- Number of bindings a store holds at a path. -/
def countKey (fs : FileStore) (k : String) : Nat :=
  (fs.filter (fun p => p.1 == k)).length


/-! ## Association-map lemmas -/

theorem find?_map_replace {α : Type} (m : List (String × α)) (k : String)
    (v : α) (h : (m.find? (fun p => p.1 == k)).isSome = true) :
    (m.map (fun p => if p.1 == k then (k, v) else p)).find?
      (fun p => p.1 == k) = some (k, v) := by
  induction m with
  | nil => simp at h
  | cons p ps ih =>
    by_cases hp : p.1 = k
    · have hb : (p.1 == k) = true := by simp [hp]
      simp only [List.map_cons]
      rw [List.find?_cons_of_pos _ (by simp [hb])]
      simp [hb]
    · have hb : (p.1 == k) = false := by simp [hp]
      simp only [List.map_cons]
      rw [List.find?_cons_of_neg _ (by simp [hb])]
      rw [List.find?_cons_of_neg _ (by simp [hb])] at h
      exact ih h

theorem find?_map_replace_ne {α : Type} (m : List (String × α))
    (k k' : String) (v : α) (hne : k' ≠ k) :
    (m.map (fun p => if p.1 == k then (k, v) else p)).find?
      (fun p => p.1 == k') = m.find? (fun p => p.1 == k') := by
  induction m with
  | nil => rfl
  | cons p ps ih =>
    by_cases hp : p.1 = k
    · have hb : (p.1 == k) = true := by simp [hp]
      have h2 : (p.1 == k') = false := by rw [hp]; simpa using Ne.symm hne
      simp only [List.map_cons]
      rw [List.find?_cons_of_neg _ (by simp [hb, Ne.symm hne])]
      rw [List.find?_cons_of_neg _ (by simp [h2])]
      exact ih
    · have hb : (p.1 == k) = false := by simp [hp]
      simp only [List.map_cons]
      by_cases hq : p.1 = k'
      · rw [List.find?_cons_of_pos _ (by simp [hb, hq, hne]),
          List.find?_cons_of_pos _ (by simp [hq])]
        simp [hb, hq, hne]
      · rw [List.find?_cons_of_neg _ (by simp [hb, hq]),
          List.find?_cons_of_neg _ (by simp [hq])]
        exact ih

theorem amFind_amSet_self {α : Type} (m : List (String × α)) (k : String)
    (v : α) : amFind (amSet m k v) k = some v := by
  unfold amSet amFind
  split
  · next h => rw [find?_map_replace m k v h]; rfl
  · next h =>
    have h0 : List.find? (fun p => p.1 == k) m = none := by
      cases hf : List.find? (fun p => p.1 == k) m with
      | none => rfl
      | some p => rw [hf] at h; simp at h
    rw [List.find?_append, h0]
    rw [List.find?_cons_of_pos _ (by simp)]
    rfl

theorem amFind_amSet_ne {α : Type} (m : List (String × α)) (k k' : String)
    (v : α) (hne : k' ≠ k) : amFind (amSet m k v) k' = amFind m k' := by
  unfold amSet amFind
  split
  · rw [find?_map_replace_ne m k k' v hne]
  · rw [List.find?_append]
    rw [List.find?_cons_of_neg _ (by simpa using Ne.symm hne)]
    simp

theorem mem_amSet {α : Type} {m : List (String × α)} {k : String} {v : α}
    {q : String × α} (h : q ∈ amSet m k v) : q = (k, v) ∨ q ∈ m := by
  unfold amSet at h
  split at h
  · obtain ⟨p, hp, hq⟩ := List.mem_map.mp h
    by_cases hpk : p.1 = k
    · left; rw [← hq]; simp [hpk]
    · right; rw [← hq]; simpa [hpk] using hp
  · rcases List.mem_append.mp h with h1 | h1
    · right; exact h1
    · left; simpa using h1

theorem keys_amSet {α : Type} {m : List (String × α)} {q : String × α}
    (k : String) (v : α) (h : q ∈ m) :
    ∃ q2 ∈ amSet m k v, q2.1 = q.1 := by
  unfold amSet
  split
  · by_cases hpk : q.1 = k
    · exact ⟨(k, v), List.mem_map.mpr ⟨q, h, by simp [hpk]⟩, by simp [hpk]⟩
    · exact ⟨q, List.mem_map.mpr ⟨q, h, by simp [hpk]⟩, rfl⟩
  · exact ⟨q, List.mem_append.mpr (Or.inl h), rfl⟩

theorem amFind_isSome_amSet {α : Type} {m : List (String × α)} {t : String}
    (k : String) (v : α) (h : (amFind m t).isSome = true) :
    (amFind (amSet m k v) t).isSome = true := by
  by_cases ht : t = k
  · subst ht; rw [amFind_amSet_self]; rfl
  · rw [amFind_amSet_ne m k t v ht]; exact h

theorem amFind_eq_none_iff {α : Type} (m : List (String × α)) (k : String) :
    amFind m k = none ↔ ∀ p ∈ m, p.1 ≠ k := by
  unfold amFind
  simp [List.find?_eq_none]

theorem exists_mem_of_amFind_isSome {α : Type} {m : List (String × α)}
    {k : String} (h : (amFind m k).isSome = true) :
    ∃ p ∈ m, p.1 = k := by
  unfold amFind at h
  cases hf : List.find? (fun p => p.1 == k) m with
  | none => rw [hf] at h; simp at h
  | some p =>
    exact ⟨p, List.mem_of_find?_eq_some hf, by simpa using List.find?_some hf⟩

theorem amFind_some_mem {α : Type} {m : List (String × α)} {k : String}
    {v : α} (h : amFind m k = some v) : ∃ p ∈ m, p.1 = k ∧ p.2 = v := by
  unfold amFind at h
  cases hf : List.find? (fun p => p.1 == k) m with
  | none => rw [hf] at h; simp at h
  | some p =>
    rw [hf] at h
    exact ⟨p, List.mem_of_find?_eq_some hf,
      by simpa using List.find?_some hf, by simpa using h⟩

/-! ## Lexicographic order lemmas -/

theorem updateTime_eq (cm : ColMap) (r : List String)
    (s : BeeswaxLogSummary) :
    updateTime cm r s =
      { s with
        timeRange0 := if (rowBidTime cm r).isZero then s.timeRange0
          else if goBefore (rowBidTime cm r) s.timeRange0 then rowBidTime cm r
          else s.timeRange0
        timeRange1 := if (rowBidTime cm r).isZero then s.timeRange1
          else if goAfter (rowBidTime cm r) s.timeRange1 then rowBidTime cm r
          else s.timeRange1
        hourlyBreakdown := if (rowBidTime cm r).isZero then s.hourlyBreakdown
          else amBump s.hourlyBreakdown (hourKey (rowBidTime cm r)) } := by
  cases h : (rowBidTime cm r).isZero with
  | true => simp [updateTime, h]
  | false =>
    simp only [updateTime, h, Bool.false_eq_true, if_false]
    split <;> split <;> rfl

theorem updateTotals_eq (cm : ColMap) (r : List String)
    (s : BeeswaxLogSummary) :
    updateTotals cm r s =
      { s with
        totalRecords := s.totalRecords + 1
        totalImpressions := s.totalImpressions + 1
        totalClicks := s.totalClicks + parseInt64 (getValueSafely cm r "CLICKS")
        totalConversions :=
          s.totalConversions + parseInt64 (getValueSafely cm r "CONVERSIONS")
        totalBidAmount := s.totalBidAmount + rowBid cm r
        totalWinCost := s.totalWinCost + rowWin cm r } := rfl

theorem updateBreakdowns_eq (cm : ColMap) (r : List String)
    (s : BeeswaxLogSummary) :
    updateBreakdowns cm r s =
      { s with
        deviceBreakdown := if getValueSafely cm r "PLATFORM_DEVICE_TYPE" ≠ "" then
            amBump s.deviceBreakdown (getValueSafely cm r "PLATFORM_DEVICE_TYPE")
          else s.deviceBreakdown
        browserBreakdown := if getValueSafely cm r "PLATFORM_BROWSER" ≠ "" then
            amBump s.browserBreakdown (getValueSafely cm r "PLATFORM_BROWSER")
          else s.browserBreakdown
        osBreakdown := if getValueSafely cm r "PLATFORM_OS" ≠ "" then
            amBump s.osBreakdown (getValueSafely cm r "PLATFORM_OS")
          else s.osBreakdown
        geoBreakdown := if getValueSafely cm r "GEO_COUNTRY" ≠ "" then
            amBump s.geoBreakdown (getValueSafely cm r "GEO_COUNTRY")
          else s.geoBreakdown
        domainBreakdown := if getValueSafely cm r "DOMAIN" ≠ "" then
            amBump s.domainBreakdown (getValueSafely cm r "DOMAIN")
          else s.domainBreakdown } := by
  simp only [updateBreakdowns]
  split <;> split <;> split <;> split <;> split <;> rfl

theorem updateCampaign_eq (cm : ColMap) (r : List String)
    (s : BeeswaxLogSummary) :
    updateCampaign cm r s =
      { s with
        campaignPerformance := if getValueSafely cm r "CAMPAIGN_ID" ≠ "" then
            amSet s.campaignPerformance (getValueSafely cm r "CAMPAIGN_ID")
              (rowCampaignMetrics cm r s)
          else s.campaignPerformance } := by
  simp only [updateCampaign, rowCampaignMetrics]
  split <;> rfl

/-! ## Row-processing projection lemmas -/

theorem processRow_totalRecords (cm : ColMap) (r : List String)
    (s : BeeswaxLogSummary) :
    (processRow cm r s).totalRecords = s.totalRecords + 1 := by
  simp only [processRow, updateCampaign_eq, updateBreakdowns_eq,
    updateTotals_eq, updateTime_eq]

theorem processRow_totalImpressions (cm : ColMap) (r : List String)
    (s : BeeswaxLogSummary) :
    (processRow cm r s).totalImpressions = s.totalImpressions + 1 := by
  simp only [processRow, updateCampaign_eq, updateBreakdowns_eq,
    updateTotals_eq, updateTime_eq]

theorem processRow_totalBidAmount (cm : ColMap) (r : List String)
    (s : BeeswaxLogSummary) :
    (processRow cm r s).totalBidAmount = s.totalBidAmount + rowBid cm r := by
  simp only [processRow, updateCampaign_eq, updateBreakdowns_eq,
    updateTotals_eq, updateTime_eq]

theorem processRow_totalWinCost (cm : ColMap) (r : List String)
    (s : BeeswaxLogSummary) :
    (processRow cm r s).totalWinCost = s.totalWinCost + rowWin cm r := by
  simp only [processRow, updateCampaign_eq, updateBreakdowns_eq,
    updateTotals_eq, updateTime_eq]

theorem processRow_averageBidPrice (cm : ColMap) (r : List String)
    (s : BeeswaxLogSummary) :
    (processRow cm r s).averageBidPrice = s.averageBidPrice := by
  simp only [processRow, updateCampaign_eq, updateBreakdowns_eq,
    updateTotals_eq, updateTime_eq]

theorem processRow_ctr (cm : ColMap) (r : List String)
    (s : BeeswaxLogSummary) : (processRow cm r s).ctr = s.ctr := by
  simp only [processRow, updateCampaign_eq, updateBreakdowns_eq,
    updateTotals_eq, updateTime_eq]

theorem processRow_averageWinRate (cm : ColMap) (r : List String)
    (s : BeeswaxLogSummary) :
    (processRow cm r s).averageWinRate = s.averageWinRate := by
  simp only [processRow, updateCampaign_eq, updateBreakdowns_eq,
    updateTotals_eq, updateTime_eq]

theorem processRow_campaignPerformance (cm : ColMap) (r : List String)
    (s : BeeswaxLogSummary) :
    (processRow cm r s).campaignPerformance =
      (if getValueSafely cm r "CAMPAIGN_ID" ≠ "" then
        amSet s.campaignPerformance (getValueSafely cm r "CAMPAIGN_ID")
          (rowCampaignMetrics cm r s)
       else s.campaignPerformance) := by
  simp only [processRow, updateCampaign_eq, updateBreakdowns_eq,
    updateTotals_eq, updateTime_eq]
  rfl

/-! ## Fold lemmas -/

theorem aggRows_cons (cm : ColMap) (r : List String) (rs : List (List String))
    (s : BeeswaxLogSummary) :
    aggRows cm (r :: rs) s = aggRows cm rs (processRow cm r s) := rfl

theorem foldRows_ok_of_lengths (n : Nat) (cm : ColMap) :
    ∀ (rows : List (List String)) (s : BeeswaxLogSummary),
    (∀ r ∈ rows, r.length = n) →
    foldRows n cm rows s = .ok (aggRows cm rows s) := by
  intro rows
  induction rows with
  | nil => intro s _; rfl
  | cons r rs ih =>
    intro s h
    unfold foldRows
    rw [if_pos (h r (by simp))]
    rw [aggRows_cons]
    exact ih (processRow cm r s) (fun q hq => h q (by simp [hq]))

theorem foldRows_ok_elim (n : Nat) (cm : ColMap) :
    ∀ (rows : List (List String)) (s s' : BeeswaxLogSummary),
    foldRows n cm rows s = .ok s' → s' = aggRows cm rows s := by
  intro rows
  induction rows with
  | nil =>
    intro s s' h
    simpa [foldRows, aggRows] using h.symm
  | cons r rs ih =>
    intro s s' h
    unfold foldRows at h
    split at h
    · rw [aggRows_cons]
      exact ih (processRow cm r s) s' h
    · simp at h

theorem foldRows_ok_lengths (n : Nat) (cm : ColMap) :
    ∀ (rows : List (List String)) (s s' : BeeswaxLogSummary),
    foldRows n cm rows s = .ok s' → ∀ r ∈ rows, r.length = n := by
  intro rows
  induction rows with
  | nil => intro s s' _ r hr; simp at hr
  | cons q qs ih =>
    intro s s' h r hr
    unfold foldRows at h
    split at h
    · next hlen =>
      rcases List.mem_cons.mp hr with h1 | h1
      · rw [h1]; exact hlen
      · exact ih (processRow cm q s) s' h r h1
    · simp at h

theorem aggRows_totalRecords (cm : ColMap) :
    ∀ (rows : List (List String)) (s : BeeswaxLogSummary),
    (aggRows cm rows s).totalRecords = s.totalRecords + rows.length := by
  intro rows
  induction rows with
  | nil => intro s; simp [aggRows]
  | cons r rs ih =>
    intro s
    rw [aggRows_cons, ih, processRow_totalRecords]
    simp
    omega

theorem aggRows_totalImpressions (cm : ColMap) :
    ∀ (rows : List (List String)) (s : BeeswaxLogSummary),
    (aggRows cm rows s).totalImpressions = s.totalImpressions + rows.length := by
  intro rows
  induction rows with
  | nil => intro s; simp [aggRows]
  | cons r rs ih =>
    intro s
    rw [aggRows_cons, ih, processRow_totalImpressions]
    simp
    omega

theorem aggRows_totalBidAmount (cm : ColMap) :
    ∀ (rows : List (List String)) (s : BeeswaxLogSummary),
    (aggRows cm rows s).totalBidAmount =
      s.totalBidAmount + (rows.map (rowBid cm)).sum := by
  intro rows
  induction rows with
  | nil => intro s; simp [aggRows]
  | cons r rs ih =>
    intro s
    rw [aggRows_cons, ih, processRow_totalBidAmount]
    rw [List.map_cons, List.sum_cons]
    ring

theorem aggRows_averageBidPrice (cm : ColMap) :
    ∀ (rows : List (List String)) (s : BeeswaxLogSummary),
    (aggRows cm rows s).averageBidPrice = s.averageBidPrice := by
  intro rows
  induction rows with
  | nil => intro s; rfl
  | cons r rs ih => intro s; rw [aggRows_cons, ih, processRow_averageBidPrice]

theorem aggRows_ctr (cm : ColMap) :
    ∀ (rows : List (List String)) (s : BeeswaxLogSummary),
    (aggRows cm rows s).ctr = s.ctr := by
  intro rows
  induction rows with
  | nil => intro s; rfl
  | cons r rs ih => intro s; rw [aggRows_cons, ih, processRow_ctr]

theorem aggRows_averageWinRate (cm : ColMap) :
    ∀ (rows : List (List String)) (s : BeeswaxLogSummary),
    (aggRows cm rows s).averageWinRate = s.averageWinRate := by
  intro rows
  induction rows with
  | nil => intro s; rfl
  | cons r rs ih => intro s; rw [aggRows_cons, ih, processRow_averageWinRate]

/-! ## Campaign-map invariant -/

theorem processRow_campInv (cm : ColMap) (r : List String)
    (s : BeeswaxLogSummary)
    (h : ∀ p ∈ s.campaignPerformance,
      p.1 ≠ "" ∧ 1 ≤ p.2.impressions ∧ p.2.ctr = 0) :
    ∀ p ∈ (processRow cm r s).campaignPerformance,
      p.1 ≠ "" ∧ 1 ≤ p.2.impressions ∧ p.2.ctr = 0 := by
  rw [processRow_campaignPerformance]
  split
  · next hid =>
    intro p hp
    rcases mem_amSet hp with h1 | h1
    · subst h1
      refine ⟨hid, ?_, ?_⟩
      · show 1 ≤ (rowCampaignMetrics cm r s).impressions
        unfold rowCampaignMetrics
        cases hf : amFind s.campaignPerformance (getValueSafely cm r "CAMPAIGN_ID") with
        | none => simp [hf, zeroCampaignMetrics]
        | some c =>
          obtain ⟨q, hq, _, hqv⟩ := amFind_some_mem hf
          have h2 := (h q hq).2.1
          rw [hqv] at h2
          simp only [hf, Option.getD_some]
          omega
      · show (rowCampaignMetrics cm r s).ctr = 0
        unfold rowCampaignMetrics
        cases hf : amFind s.campaignPerformance (getValueSafely cm r "CAMPAIGN_ID") with
        | none => simp [hf, zeroCampaignMetrics]
        | some c =>
          obtain ⟨q, hq, _, hqv⟩ := amFind_some_mem hf
          have h2 := (h q hq).2.2
          rw [hqv] at h2
          simp only [hf, Option.getD_some]
          exact h2
    · exact h p h1
  · exact h

theorem aggRows_campInv (cm : ColMap) :
    ∀ (rows : List (List String)) (s : BeeswaxLogSummary),
    (∀ p ∈ s.campaignPerformance,
      p.1 ≠ "" ∧ 1 ≤ p.2.impressions ∧ p.2.ctr = 0) →
    ∀ p ∈ (aggRows cm rows s).campaignPerformance,
      p.1 ≠ "" ∧ 1 ≤ p.2.impressions ∧ p.2.ctr = 0 := by
  intro rows
  induction rows with
  | nil => intro s h; exact h
  | cons r rs ih =>
    intro s h
    rw [aggRows_cons]
    exact ih (processRow cm r s) (processRow_campInv cm r s h)

/-! ## Finalizer lemmas -/

theorem finalize_totalRecords (s : BeeswaxLogSummary) :
    (finalize s).totalRecords = s.totalRecords := by
  by_cases h1 : s.totalRecords > 0 <;> by_cases h2 : s.totalImpressions > 0 <;>
    simp [finalize, h1, h2]

theorem finalize_totalImpressions (s : BeeswaxLogSummary) :
    (finalize s).totalImpressions = s.totalImpressions := by
  by_cases h1 : s.totalRecords > 0 <;> by_cases h2 : s.totalImpressions > 0 <;>
    simp [finalize, h1, h2]

theorem finalize_totalClicks (s : BeeswaxLogSummary) :
    (finalize s).totalClicks = s.totalClicks := by
  by_cases h1 : s.totalRecords > 0 <;> by_cases h2 : s.totalImpressions > 0 <;>
    simp [finalize, h1, h2]

theorem finalize_totalBidAmount (s : BeeswaxLogSummary) :
    (finalize s).totalBidAmount = s.totalBidAmount := by
  by_cases h1 : s.totalRecords > 0 <;> by_cases h2 : s.totalImpressions > 0 <;>
    simp [finalize, h1, h2]

theorem finalize_averageBidPrice (s : BeeswaxLogSummary) :
    (finalize s).averageBidPrice =
      (if s.totalRecords > 0 then s.totalBidAmount / (s.totalRecords : ℚ)
       else s.averageBidPrice) := by
  by_cases h1 : s.totalRecords > 0 <;> by_cases h2 : s.totalImpressions > 0 <;>
    simp [finalize, h1, h2]

theorem finalize_ctr (s : BeeswaxLogSummary) :
    (finalize s).ctr =
      (if s.totalImpressions > 0 then
        (s.totalClicks : ℚ) / (s.totalImpressions : ℚ) * 100
       else s.ctr) := by
  by_cases h1 : s.totalRecords > 0 <;> by_cases h2 : s.totalImpressions > 0 <;>
    simp [finalize, h1, h2]

theorem finalize_averageWinRate (s : BeeswaxLogSummary) :
    (finalize s).averageWinRate =
      (if s.totalRecords > 0 then
        (s.totalImpressions : ℚ) / (s.totalRecords : ℚ) * 100
       else s.averageWinRate) := by
  by_cases h1 : s.totalRecords > 0 <;> by_cases h2 : s.totalImpressions > 0 <;>
    simp [finalize, h1, h2]

theorem finalize_campaignPerformance (s : BeeswaxLogSummary) :
    (finalize s).campaignPerformance = s.campaignPerformance.map (fun p =>
      if p.2.impressions > 0 then
        (p.1, { p.2 with ctr := (p.2.clicks : ℚ) / (p.2.impressions : ℚ) * 100 })
      else p) := by
  by_cases h1 : s.totalRecords > 0 <;> by_cases h2 : s.totalImpressions > 0 <;>
    simp [finalize, h1, h2]

/-! ## Parse decomposition lemmas -/

theorem ParseBeeswaxLog_ok_elim {header : List String}
    {rows : List (List String)} {s : BeeswaxLogSummary}
    (h : ParseBeeswaxLog (header :: rows) = .ok s) :
    ∃ cm, resolveColumns header = .ok cm ∧
      (∀ r ∈ rows, r.length = header.length) ∧
      s = finalize (aggRows cm rows initSummary) := by
  simp only [ParseBeeswaxLog] at h
  cases hres : resolveColumns header with
  | error c =>
    rw [hres] at h
    have h2 : (Except.error ("required column not found: " ++ c) :
      Except String BeeswaxLogSummary) = Except.ok s := h
    simp at h2
  | ok cm =>
    rw [hres] at h
    have h2 : (match foldRows header.length cm rows initSummary with
      | Except.error e => Except.error e
      | Except.ok s1 => Except.ok (finalize s1)) = Except.ok s := h
    cases hfold : foldRows header.length cm rows initSummary with
    | error e => rw [hfold] at h2; simp at h2
    | ok s0 =>
      rw [hfold] at h2
      simp only [Except.ok.injEq] at h2
      exact ⟨cm, rfl, foldRows_ok_lengths _ cm rows _ s0 hfold,
        by rw [← h2, foldRows_ok_elim _ cm rows _ s0 hfold]⟩

theorem ParseBeeswaxLog_ok_intro {header : List String}
    {rows : List (List String)} {cm : ColMap}
    (hres : resolveColumns header = .ok cm)
    (hlen : ∀ r ∈ rows, r.length = header.length) :
    ParseBeeswaxLog (header :: rows) =
      .ok (finalize (aggRows cm rows initSummary)) := by
  simp only [ParseBeeswaxLog]
  rw [hres]
  show (match foldRows header.length cm rows initSummary with
    | Except.error e => Except.error e
    | Except.ok s => Except.ok (finalize s)) =
    Except.ok (finalize (aggRows cm rows initSummary))
  rw [foldRows_ok_of_lengths header.length cm rows initSummary hlen]

/-! ## Numeric-parse lemmas -/

theorem parseInt64_of_invalid {s : String} (h : isValidInt64Syntax s = false) :
    parseInt64 s = 0 := by
  unfold isValidInt64Syntax at h
  unfold parseInt64
  cases hd : s.data with
  | nil => rfl
  | cons c rest =>
    rw [hd] at h
    simp only at h ⊢
    by_cases hsign : c = '+' ∨ c = '-'
    · rw [if_pos hsign] at h ⊢
      have hg : (rest.isEmpty || !rest.all Char.isDigit) = true := by
        revert h; cases rest.isEmpty <;> cases rest.all Char.isDigit <;> simp
      rw [if_pos hg]
    · rw [if_neg hsign] at h ⊢
      have hg : ((c :: rest).isEmpty || !(c :: rest).all Char.isDigit) = true := by
        revert h; cases (c :: rest).all Char.isDigit <;> simp
      rw [if_pos hg]

/-! ## Time-exclusion lemmas -/

theorem buildColMapAux_keys_sub :
    ∀ (cs : List String) (i : Nat) (m : ColMap) (p : String × Nat),
    p ∈ buildColMapAux i cs m → p.1 ∈ cs ∨ p ∈ m := by
  intro cs
  induction cs with
  | nil => intro i m p h; right; exact h
  | cons c cs' ih =>
    intro i m p h
    rcases ih (i + 1) (amSet m c i) p h with h1 | h1
    · left; exact List.mem_cons_of_mem c h1
    · rcases mem_amSet h1 with h2 | h2
      · left; rw [h2]; exact List.mem_cons_self c cs'
      · right; exact h2

theorem buildColMapAux_hasKey :
    ∀ (cs : List String) (i : Nat) (m : ColMap) (t : String),
    t ∈ cs ∨ (amFind m t).isSome = true →
    (amFind (buildColMapAux i cs m) t).isSome = true := by
  intro cs
  induction cs with
  | nil =>
    intro i m t h
    rcases h with h | h
    · simp at h
    · exact h
  | cons c cs' ih =>
    intro i m t h
    apply ih (i + 1) (amSet m c i) t
    rcases h with h | h
    · rcases List.mem_cons.mp h with h1 | h1
      · right; rw [h1, amFind_amSet_self]; rfl
      · left; exact h1
    · right; exact amFind_isSome_amSet c i h

theorem buildColMap_hasKey {header : List String} {t : String}
    (h : t ∈ header) : (amFind (buildColMap header) t).isSome = true :=
  buildColMapAux_hasKey header 0 [] t (Or.inl h)

theorem buildColMap_keys_sub {header : List String} {p : String × Nat}
    (h : p ∈ buildColMap header) : p.1 ∈ header := by
  rcases buildColMapAux_keys_sub header 0 [] p h with h1 | h1
  · exact h1
  · simp at h1

theorem resolveRequired_isOk :
    ∀ (cs : List String) (cm : ColMap),
    (∀ c ∈ cs, ∃ p ∈ cm, asciiUpper p.1 = c ∨ p.1 = c) →
    ∃ cm2, resolveRequired cm cs = .ok cm2 := by
  intro cs
  induction cs with
  | nil => intro cm _; exact ⟨cm, rfl⟩
  | cons c cs' ih =>
    intro cm h
    unfold resolveRequired
    cases hf : amFind cm c with
    | some idx => exact ih cm (fun c2 hc2 => h c2 (by simp [hc2]))
    | none =>
      have hnone := (amFind_eq_none_iff cm c).mp hf
      obtain ⟨p, hp, hcase⟩ := h c (by simp)
      have hup : asciiUpper p.1 = c := by
        rcases hcase with h1 | h1
        · exact h1
        · exact absurd h1 (hnone p hp)
      cases hfind : cm.find? (fun q => asciiUpper q.1 == c) with
      | none =>
        exfalso
        exact absurd (by simpa using hup) (List.find?_eq_none.mp hfind p hp)
      | some q =>
        apply ih
        intro c2 hc2
        obtain ⟨p2, hp2, hcase2⟩ := h c2 (by simp [hc2])
        obtain ⟨p3, hp3, hkey⟩ := keys_amSet c q.2 hp2
        exact ⟨p3, hp3, by rw [hkey]; exact hcase2⟩

theorem resolveRequired_isErr (header : List String) :
    ∀ (cs : List String) (cm : ColMap),
    cs.Nodup →
    (∀ c3 ∈ cs, asciiUpper c3 = c3) →
    (∃ c ∈ cs, missingBoth header c) →
    (∀ t ∈ header, (amFind cm t).isSome = true) →
    (∀ p ∈ cm, p.1 ∈ header ∨ (asciiUpper p.1 = p.1 ∧ p.1 ∉ cs)) →
    ∃ c2 ∈ cs, missingBoth header c2 ∧ resolveRequired cm cs = .error c2 := by
  intro cs
  induction cs with
  | nil =>
    intro cm _ _ hbad _ _
    obtain ⟨c, hc, _⟩ := hbad
    simp at hc
  | cons c cs' ih =>
    intro cm hnd hup hbad hkeys hinv
    unfold resolveRequired
    cases hf : amFind cm c with
    | some idx =>
      obtain ⟨p, hp, hpk, _⟩ := amFind_some_mem hf
      obtain ⟨cb, hcb, hcbbad⟩ := hbad
      have hcbcs' : cb ∈ cs' := by
        rcases List.mem_cons.mp hcb with h1 | h1
        · exfalso
          subst h1
          rcases hinv p hp with h2 | h2
          · exact (hcbbad p.1 h2).1 hpk
          · exact h2.2 (by rw [hpk]; exact List.mem_cons_self cb cs')
        · exact h1
      obtain ⟨c2, hc2, hc2bad, hres⟩ := ih cm (List.Nodup.of_cons hnd)
        (fun c3 hc3 => hup c3 (List.mem_cons_of_mem c hc3))
        ⟨cb, hcbcs', hcbbad⟩ hkeys
        (fun p2 hp2 => by
          rcases hinv p2 hp2 with h2 | h2
          · exact Or.inl h2
          · exact Or.inr ⟨h2.1, fun hmem => h2.2 (List.mem_cons_of_mem c hmem)⟩)
      exact ⟨c2, List.mem_cons_of_mem c hc2, hc2bad, hres⟩
    | none =>
      cases hfind : cm.find? (fun q => asciiUpper q.1 == c) with
      | none =>
        refine ⟨c, by simp, ?_, rfl⟩
        intro t ht
        have hmem := exists_mem_of_amFind_isSome (hkeys t ht)
        obtain ⟨p, hp, hpk⟩ := hmem
        constructor
        · intro hteq
          exact (amFind_eq_none_iff cm c).mp hf p hp (by rw [hpk, hteq])
        · intro hteq
          have := List.find?_eq_none.mp hfind p hp
          rw [hpk] at this
          exact this (by simp [hteq])
      | some q =>
        have hq := List.mem_of_find?_eq_some hfind
        have hqup : asciiUpper q.1 = c := by
          simpa using List.find?_some hfind
        obtain ⟨cb, hcb, hcbbad⟩ := hbad
        have hcbcs' : cb ∈ cs' := by
          rcases List.mem_cons.mp hcb with h1 | h1
          · exfalso
            subst h1
            rcases hinv q hq with h2 | h2
            · exact (hcbbad q.1 h2).2 hqup
            · rw [h2.1] at hqup
              exact h2.2 (by rw [hqup]; exact List.mem_cons_self cb cs')
          · exact h1
        obtain ⟨c2, hc2, hc2bad, hres⟩ := ih (amSet cm c q.2)
          (List.Nodup.of_cons hnd)
          (fun c3 hc3 => hup c3 (List.mem_cons_of_mem c hc3))
          ⟨cb, hcbcs', hcbbad⟩
          (fun t ht => amFind_isSome_amSet c q.2 (hkeys t ht))
          (fun p2 hp2 => by
            rcases mem_amSet hp2 with h2 | h2
            · refine Or.inr ⟨?_, ?_⟩
              · rw [h2]; exact hup c (List.mem_cons_self c cs')
              · rw [h2]; exact (List.nodup_cons.mp hnd).1
            · rcases hinv p2 h2 with h3 | h3
              · exact Or.inl h3
              · exact Or.inr ⟨h3.1, fun hmem => h3.2 (List.mem_cons_of_mem c hmem)⟩)
        exact ⟨c2, List.mem_cons_of_mem c hc2, hc2bad, hres⟩

/-! ## Store lemmas -/

theorem map_replace_id {α : Type} (m : List (String × α)) (k : String) (v : α)
    (h : ∀ p ∈ m, (p.1 == k) = false) :
    m.map (fun p => if p.1 == k then (k, v) else p) = m := by
  induction m with
  | nil => rfl
  | cons p ps ih =>
    simp only [List.map_cons, h p (List.mem_cons_self p ps), Bool.false_eq_true,
      if_false, List.cons.injEq, true_and]
    exact ih (fun q hq => h q (List.mem_cons_of_mem p hq))

theorem map_replace_idem {α : Type} (m : List (String × α)) (k : String) (v : α) :
    (m.map (fun p => if p.1 == k then (k, v) else p)).map
      (fun p => if p.1 == k then (k, v) else p) =
    m.map (fun p => if p.1 == k then (k, v) else p) := by
  rw [List.map_map]
  apply List.map_congr_left
  intro p _
  by_cases hp : p.1 = k
  · simp [hp]
  · simp [hp]

theorem amSet_amSet_same {α : Type} (m : List (String × α)) (k : String)
    (v : α) : amSet (amSet m k v) k v = amSet m k v := by
  unfold amSet
  split
  · next h =>
    rw [if_pos (by rw [find?_map_replace m k v h]; rfl)]
    exact map_replace_idem m k v
  · next h =>
    have h0 : List.find? (fun p => p.1 == k) m = none := by
      cases hf : List.find? (fun p => p.1 == k) m with
      | none => rfl
      | some p => rw [hf] at h; simp at h
    have hpos : ((m ++ [(k, v)]).find? (fun p => p.1 == k)).isSome = true := by
      rw [List.find?_append, h0]
      simp
    rw [if_pos hpos, List.map_append]
    have h1 : m.map (fun p => if p.1 == k then (k, v) else p) = m :=
      map_replace_id m k v (fun p hp => by
        have := List.find?_eq_none.mp h0 p hp
        simpa using this)
    rw [h1]
    simp

theorem countKey_map_replace {α : Type} (m : List (String × α)) (k : String)
    (v : α) :
    ((m.map (fun p => if p.1 == k then (k, v) else p)).filter
      (fun p => p.1 == k)).length = (m.filter (fun p => p.1 == k)).length := by
  induction m with
  | nil => rfl
  | cons p ps ih =>
    by_cases hp : p.1 = k
    · have hb : (p.1 == k) = true := by simp [hp]
      simp [List.filter_cons] at ih ⊢
      simp [hb, hp, ih]
    · have hb : (p.1 == k) = false := by simp [hp]
      simp [List.filter_cons] at ih ⊢
      simp [hb, hp, ih]

theorem countKey_amSet_one {α : Type} (m : List (String × α)) (k : String)
    (v : α) (hnd : (m.map Prod.fst).Nodup) :
    ((amSet m k v).filter (fun p => p.1 == k)).length = 1 := by
  unfold amSet
  split
  · next h =>
    rw [countKey_map_replace]
    have hsome : (amFind m k).isSome = true := by
      unfold amFind
      cases hf : List.find? (fun p => p.1 == k) m with
      | none => rw [hf] at h; simp at h
      | some q => rfl
    obtain ⟨p, hp, hpk⟩ := exists_mem_of_amFind_isSome hsome
    have e1 : (m.filter (fun p => p.1 == k)).length =
        List.count k (m.map Prod.fst) := by
      rw [← List.countP_eq_length_filter, List.count_eq_countP, List.countP_map]
      rfl
    have e2 : List.count k (m.map Prod.fst) ≤ 1 :=
      List.nodup_iff_count_le_one.mp hnd k
    have e3 : 0 < List.count k (m.map Prod.fst) :=
      List.count_pos_iff.mpr (List.mem_map.mpr ⟨p, hp, hpk⟩)
    rw [e1]
    omega
  · next h =>
    have h0 : List.find? (fun p => p.1 == k) m = none := by
      cases hf : List.find? (fun p => p.1 == k) m with
      | none => rfl
      | some p => rw [hf] at h; simp at h
    rw [List.filter_append]
    have h1 : m.filter (fun p => p.1 == k) = [] :=
      List.filter_eq_nil_iff.mpr (List.find?_eq_none.mp h0)
    rw [h1]
    simp

theorem amFind_isSome_eq_contains {α : Type} (m : List (String × α))
    (k : String) : (amFind m k).isSome = (m.map Prod.fst).contains k := by
  induction m with
  | nil => rfl
  | cons p ps ih =>
    unfold amFind at ih ⊢
    by_cases hp : p.1 = k
    · rw [List.find?_cons_of_pos _ (by simp [hp])]
      have hc : (List.map Prod.fst (p :: ps)).contains k = true := by
        simp [List.contains_cons, hp]
      rw [hc]
      rfl
    · rw [List.find?_cons_of_neg _ (by simp [hp])]
      rw [ih]
      have hb2 : (k == p.1) = false := by simp [Ne.symm hp]
      simp only [List.map_cons, List.contains_cons, hb2, Bool.false_or]

/-! ## Claim theorems -/

/-- C9: Saving an analysis result is idempotent per (user, file) key: saving
twice with the same key and summary leaves exactly one stored result, load
returns a result equal to the input after either save (overwrite, never
duplicate or append), and the has-this-file-been-processed query depends
only on which report paths exist, not on the stored contents. -/
theorem C9_idempotent_persistence :
    (∀ (fs : FileStore) (basePath userID fileID : String)
      (r : LogAnalysisResult),
      (fs.map Prod.fst).Nodup →
      GetAnalysisResult (storeAnalysisResult fs basePath r userID fileID)
        basePath fileID userID = some r ∧
      GetAnalysisResult (storeAnalysisResult
          (storeAnalysisResult fs basePath r userID fileID)
          basePath r userID fileID) basePath fileID userID = some r ∧
      storeAnalysisResult (storeAnalysisResult fs basePath r userID fileID)
          basePath r userID fileID =
        storeAnalysisResult fs basePath r userID fileID ∧
      countKey (storeAnalysisResult
          (storeAnalysisResult fs basePath r userID fileID)
          basePath r userID fileID) (resultsPath basePath userID fileID) = 1)
  ∧ (∀ (fs1 fs2 : FileStore) (basePath fileID userID : String),
      fs1.map Prod.fst = fs2.map Prod.fst →
      IsLogFileProcessed fs1 basePath fileID userID =
        IsLogFileProcessed fs2 basePath fileID userID) := by
  constructor
  · intro fs basePath userID fileID r hnd
    refine ⟨?_, ?_, ?_, ?_⟩
    · exact amFind_amSet_self fs (resultsPath basePath userID fileID) r
    · unfold storeAnalysisResult GetAnalysisResult
      rw [amSet_amSet_same]
      exact amFind_amSet_self fs (resultsPath basePath userID fileID) r
    · exact amSet_amSet_same fs (resultsPath basePath userID fileID) r
    · unfold storeAnalysisResult countKey
      rw [amSet_amSet_same]
      exact countKey_amSet_one fs (resultsPath basePath userID fileID) r hnd
  · intro fs1 fs2 basePath fileID userID hkeys
    unfold IsLogFileProcessed
    rw [amFind_isSome_eq_contains, amFind_isSome_eq_contains, hkeys]

/-- C9 witness: the persistence properties at a concrete empty store, key and
result. -/
theorem C9_idempotent_persistence_witness :
    (GetAnalysisResult (storeAnalysisResult [] "uploads"
        ⟨"f1", "u1", "log.csv", zeroGoTime, initSummary, "completed", ""⟩
        "u1" "f1") "uploads" "f1" "u1" =
      some ⟨"f1", "u1", "log.csv", zeroGoTime, initSummary, "completed", ""⟩ ∧
     GetAnalysisResult (storeAnalysisResult (storeAnalysisResult [] "uploads"
        ⟨"f1", "u1", "log.csv", zeroGoTime, initSummary, "completed", ""⟩
        "u1" "f1") "uploads"
        ⟨"f1", "u1", "log.csv", zeroGoTime, initSummary, "completed", ""⟩
        "u1" "f1") "uploads" "f1" "u1" =
      some ⟨"f1", "u1", "log.csv", zeroGoTime, initSummary, "completed", ""⟩ ∧
     storeAnalysisResult (storeAnalysisResult [] "uploads"
        ⟨"f1", "u1", "log.csv", zeroGoTime, initSummary, "completed", ""⟩
        "u1" "f1") "uploads"
        ⟨"f1", "u1", "log.csv", zeroGoTime, initSummary, "completed", ""⟩
        "u1" "f1" =
      storeAnalysisResult [] "uploads"
        ⟨"f1", "u1", "log.csv", zeroGoTime, initSummary, "completed", ""⟩
        "u1" "f1" ∧
     countKey (storeAnalysisResult (storeAnalysisResult [] "uploads"
        ⟨"f1", "u1", "log.csv", zeroGoTime, initSummary, "completed", ""⟩
        "u1" "f1") "uploads"
        ⟨"f1", "u1", "log.csv", zeroGoTime, initSummary, "completed", ""⟩
        "u1" "f1") (resultsPath "uploads" "u1" "f1") = 1) ∧
    IsLogFileProcessed [] "uploads" "f1" "u1" =
      IsLogFileProcessed [] "uploads" "f1" "u1" :=
  ⟨C9_idempotent_persistence.1 [] "uploads" "u1" "f1"
      ⟨"f1", "u1", "log.csv", zeroGoTime, initSummary, "completed", ""⟩
      (by simp),
   C9_idempotent_persistence.2 [] [] "uploads" "f1" "u1" rfl⟩

/-- C3: A data row whose `BID_PRICE_MICROS_USD` (or `WIN_COST_MICROS_USD`)
cell is not syntactically a base-10 integer numeral contributes the value 0
to the corresponding total, is not rejected, and still increments total
records and total impressions by one; `parseInt64` yields 0 on every such
cell, with no error path. -/
theorem C3_numeric_tolerance :
    (∀ cell : String, isValidInt64Syntax cell = false → parseInt64 cell = 0)
  ∧ (∀ (cm : ColMap) (r : List String) (s : BeeswaxLogSummary),
      isValidInt64Syntax (getValueSafely cm r "BID_PRICE_MICROS_USD") = false →
      (processRow cm r s).totalRecords = s.totalRecords + 1 ∧
      (processRow cm r s).totalImpressions = s.totalImpressions + 1 ∧
      (processRow cm r s).totalBidAmount = s.totalBidAmount)
  ∧ (∀ (cm : ColMap) (r : List String) (s : BeeswaxLogSummary),
      isValidInt64Syntax (getValueSafely cm r "WIN_COST_MICROS_USD") = false →
      (processRow cm r s).totalRecords = s.totalRecords + 1 ∧
      (processRow cm r s).totalImpressions = s.totalImpressions + 1 ∧
      (processRow cm r s).totalWinCost = s.totalWinCost) := by
  refine ⟨fun cell h => parseInt64_of_invalid h, ?_, ?_⟩
  · intro cm r s h
    refine ⟨processRow_totalRecords cm r s, processRow_totalImpressions cm r s, ?_⟩
    rw [processRow_totalBidAmount]
    unfold rowBid
    rw [parseInt64_of_invalid h]
    simp
  · intro cm r s h
    refine ⟨processRow_totalRecords cm r s, processRow_totalImpressions cm r s, ?_⟩
    rw [processRow_totalWinCost]
    unfold rowWin
    rw [parseInt64_of_invalid h]
    simp

/-- C3 witness: a concrete row with non-numeric bid price and win cost
cells. -/
theorem C3_numeric_tolerance_witness :
    parseInt64 "abc" = 0 ∧
    ((processRow (buildColMap requiredCols)
        ["", "", "abc", "", "", "", "", "", "", "", "", "", "", "", "", "12x"]
        initSummary).totalRecords = initSummary.totalRecords + 1 ∧
     (processRow (buildColMap requiredCols)
        ["", "", "abc", "", "", "", "", "", "", "", "", "", "", "", "", "12x"]
        initSummary).totalImpressions = initSummary.totalImpressions + 1 ∧
     (processRow (buildColMap requiredCols)
        ["", "", "abc", "", "", "", "", "", "", "", "", "", "", "", "", "12x"]
        initSummary).totalBidAmount = initSummary.totalBidAmount) ∧
    ((processRow (buildColMap requiredCols)
        ["", "", "abc", "", "", "", "", "", "", "", "", "", "", "", "", "12x"]
        initSummary).totalWinCost = initSummary.totalWinCost) :=
  ⟨C3_numeric_tolerance.1 "abc" (by decide),
   C3_numeric_tolerance.2.1 (buildColMap requiredCols)
     ["", "", "abc", "", "", "", "", "", "", "", "", "", "", "", "", "12x"]
     initSummary (by decide),
   (C3_numeric_tolerance.2.2 (buildColMap requiredCols)
     ["", "", "abc", "", "", "", "", "", "", "", "", "", "", "", "", "12x"]
     initSummary (by decide)).2.2⟩

/-- C6: For every input the parser accepts, the returned summary counts one
record and one impression per data row: total records = total impressions =
number of data rows (the header excluded). -/
theorem C6_count_invariant (header : List String) (rows : List (List String))
    (s : BeeswaxLogSummary) (h : ParseBeeswaxLog (header :: rows) = .ok s) :
    s.totalRecords = rows.length ∧ s.totalImpressions = rows.length ∧
    s.totalRecords = s.totalImpressions := by
  obtain ⟨cm, _, _, hs⟩ := ParseBeeswaxLog_ok_elim h
  subst hs
  rw [finalize_totalRecords, finalize_totalImpressions,
    aggRows_totalRecords, aggRows_totalImpressions]
  refine ⟨by simp [initSummary], by simp [initSummary], by simp [initSummary]⟩

/-- C6 witness: the empty-row stream under the canonical header. -/
theorem C6_count_invariant_witness :
    initSummary.totalRecords = 0 ∧ initSummary.totalImpressions = 0 ∧
    initSummary.totalRecords = initSummary.totalImpressions :=
  C6_count_invariant requiredCols [] initSummary rfl

/-- C10: Every entry of the campaign-performance map of a returned summary
has a non-empty campaign id as key and an impressions count of at least 1,
so the finalizer's guard holds for it and its CTR field carries the
clicks-over-impressions formula. -/
theorem C10_campaign_entries (header : List String)
    (rows : List (List String)) (s : BeeswaxLogSummary)
    (h : ParseBeeswaxLog (header :: rows) = .ok s) :
    ∀ p ∈ s.campaignPerformance, p.1 ≠ "" ∧ 1 ≤ p.2.impressions ∧
      p.2.ctr = (p.2.clicks : ℚ) / (p.2.impressions : ℚ) * 100 := by
  obtain ⟨cm, _, _, hs⟩ := ParseBeeswaxLog_ok_elim h
  subst hs
  intro p hp
  rw [finalize_campaignPerformance] at hp
  obtain ⟨q, hq, hfq⟩ := List.mem_map.mp hp
  have hinv := aggRows_campInv cm rows initSummary (by intro p2 hp2; simp [initSummary] at hp2) q hq
  have himp : q.2.impressions > 0 := by omega
  rw [if_pos himp] at hfq
  subst hfq
  exact ⟨hinv.1, by simpa using hinv.2.1, rfl⟩

/-- C10 witness: the single map entry produced by a stream with one row
carrying campaign id `c1`. -/
theorem C10_campaign_entries_witness :
    ("c1", { rowCampaignMetrics canonColMap campaignRow initSummary with
      ctr := ((rowCampaignMetrics canonColMap campaignRow initSummary).clicks : ℚ) /
        ((rowCampaignMetrics canonColMap campaignRow initSummary).impressions : ℚ) *
        100 }).1 ≠ "" ∧
    1 ≤ ("c1", { rowCampaignMetrics canonColMap campaignRow initSummary with
      ctr := ((rowCampaignMetrics canonColMap campaignRow initSummary).clicks : ℚ) /
        ((rowCampaignMetrics canonColMap campaignRow initSummary).impressions : ℚ) *
        100 }).2.impressions ∧
    ("c1", { rowCampaignMetrics canonColMap campaignRow initSummary with
      ctr := ((rowCampaignMetrics canonColMap campaignRow initSummary).clicks : ℚ) /
        ((rowCampaignMetrics canonColMap campaignRow initSummary).impressions : ℚ) *
        100 }).2.ctr =
      (("c1", { rowCampaignMetrics canonColMap campaignRow initSummary with
        ctr := ((rowCampaignMetrics canonColMap campaignRow initSummary).clicks : ℚ) /
          ((rowCampaignMetrics canonColMap campaignRow initSummary).impressions : ℚ) *
          100 }).2.clicks : ℚ) /
      (("c1", { rowCampaignMetrics canonColMap campaignRow initSummary with
        ctr := ((rowCampaignMetrics canonColMap campaignRow initSummary).clicks : ℚ) /
          ((rowCampaignMetrics canonColMap campaignRow initSummary).impressions : ℚ) *
          100 }).2.impressions : ℚ) * 100 :=
  C10_campaign_entries requiredCols [campaignRow]
    (finalize (processRow canonColMap campaignRow initSummary)) rfl
    ("c1", { rowCampaignMetrics canonColMap campaignRow initSummary with
      ctr := ((rowCampaignMetrics canonColMap campaignRow initSummary).clicks : ℚ) /
        ((rowCampaignMetrics canonColMap campaignRow initSummary).impressions : ℚ) *
        100 })
    (List.mem_cons_self _ _)

/-- C7: The finalizer computes average bid price as total bid amount over
total records (0 when no records), global CTR as clicks over impressions
times 100 (0 when no impressions), and per-campaign CTR as campaign clicks
over campaign impressions times 100 for every campaign key; an input with
zero data rows yields all derived metrics equal to 0 with no
division-by-zero fault. -/
theorem C7_derived_metrics :
    (∀ (header : List String) (rows : List (List String))
      (s : BeeswaxLogSummary), ParseBeeswaxLog (header :: rows) = .ok s →
      s.averageBidPrice = (if s.totalRecords > 0 then
        s.totalBidAmount / (s.totalRecords : ℚ) else 0) ∧
      s.ctr = (if s.totalImpressions > 0 then
        (s.totalClicks : ℚ) / (s.totalImpressions : ℚ) * 100 else 0) ∧
      (∀ p ∈ s.campaignPerformance, p.2.ctr =
        (if p.2.impressions > 0 then
          (p.2.clicks : ℚ) / (p.2.impressions : ℚ) * 100 else 0)))
  ∧ (∀ (header : List String) (cm : ColMap),
      resolveColumns header = .ok cm →
      ∃ s, ParseBeeswaxLog [header] = .ok s ∧ s.averageBidPrice = 0 ∧
        s.ctr = 0 ∧ s.averageWinRate = 0 ∧ s.campaignPerformance = []) := by
  constructor
  · intro header rows s h
    obtain ⟨cm, _, _, hs⟩ := ParseBeeswaxLog_ok_elim h
    subst hs
    refine ⟨?_, ?_, ?_⟩
    · rw [finalize_averageBidPrice, finalize_totalRecords,
        finalize_totalBidAmount, aggRows_averageBidPrice]
      simp only [initSummary]
    · rw [finalize_ctr, finalize_totalImpressions, finalize_totalClicks,
        aggRows_ctr]
      simp only [initSummary]
    · intro p hp
      rw [finalize_campaignPerformance] at hp
      obtain ⟨q, hq, hfq⟩ := List.mem_map.mp hp
      have hinv := aggRows_campInv cm rows initSummary
        (by intro p2 hp2; simp [initSummary] at hp2) q hq
      by_cases himp : q.2.impressions > 0
      · rw [if_pos himp] at hfq
        subst hfq
        simp only
        rw [if_pos himp]
      · rw [if_neg himp] at hfq
        subst hfq
        rw [if_neg himp]
        exact hinv.2.2
  · intro header cm hres
    refine ⟨initSummary, ?_, rfl, rfl, rfl, rfl⟩
    rw [ParseBeeswaxLog_ok_intro hres (by simp)]
    rfl

/-- C7 witness: the ratio characterizations at the empty-row stream, and the
zero-rows instance at the canonical header. -/
theorem C7_derived_metrics_witness :
    (initSummary.averageBidPrice = (if initSummary.totalRecords > 0 then
        initSummary.totalBidAmount / (initSummary.totalRecords : ℚ) else 0) ∧
     initSummary.ctr = (if initSummary.totalImpressions > 0 then
        (initSummary.totalClicks : ℚ) / (initSummary.totalImpressions : ℚ) * 100
        else 0) ∧
     (∀ p ∈ initSummary.campaignPerformance, p.2.ctr =
        (if p.2.impressions > 0 then
          (p.2.clicks : ℚ) / (p.2.impressions : ℚ) * 100 else 0))) ∧
    (∃ s, ParseBeeswaxLog [requiredCols] = .ok s ∧ s.averageBidPrice = 0 ∧
      s.ctr = 0 ∧ s.averageWinRate = 0 ∧ s.campaignPerformance = []) :=
  ⟨C7_derived_metrics.1 requiredCols [] initSummary rfl,
   C7_derived_metrics.2 requiredCols (buildColMap requiredCols) rfl⟩

/-- C1 counterexample: a stream with a valid header and one physically
present data row (a single cell, fewer than the header's 16) is rejected
outright — the parse returns the fatal read error instead of a summary with
incremented counters, because the CSV reader's field-count check fires
before the tolerant cell access is ever reached. -/
theorem C1_counterexample :
    ParseBeeswaxLog [requiredCols, ["x"]] = .error "error reading record" :=
  rfl

/-- C1 (amended): cell access is total — an unresolved column or an
out-of-range index yields the empty string, never an error — and, provided
every data row carries exactly as many cells as the header, no row is ever
rejected: the parse succeeds and total records and total impressions both
equal the number of data rows, regardless of field-level parse failures.
(A row whose cell count differs from the header's aborts the whole parse,
as the counterexample shows.) -/
theorem C1_row_tolerance :
    (∀ (cm : ColMap) (record : List String) (colName : String),
      (amFind cm colName = none → getValueSafely cm record colName = "") ∧
      (∀ idx, amFind cm colName = some idx → record.length ≤ idx →
        getValueSafely cm record colName = ""))
  ∧ (∀ (header : List String) (rows : List (List String)) (cm : ColMap),
      resolveColumns header = .ok cm →
      (∀ r ∈ rows, r.length = header.length) →
      ∃ s, ParseBeeswaxLog (header :: rows) = .ok s ∧
        s.totalRecords = rows.length ∧ s.totalImpressions = rows.length) := by
  constructor
  · intro cm record colName
    constructor
    · intro hnone
      unfold getValueSafely
      rw [hnone]
    · intro idx hsome hlen
      unfold getValueSafely
      rw [hsome]
      exact List.getD_eq_default record "" hlen
  · intro header rows cm hres hlen
    refine ⟨finalize (aggRows cm rows initSummary),
      ParseBeeswaxLog_ok_intro hres hlen, ?_, ?_⟩
    · rw [finalize_totalRecords, aggRows_totalRecords]
      simp [initSummary]
    · rw [finalize_totalImpressions, aggRows_totalImpressions]
      simp [initSummary]

/-- C1 witness: cell access on a missing column and a one-row stream of
full width. -/
theorem C1_row_tolerance_witness :
    getValueSafely [] [] "BID_TIME" = "" ∧
    (∃ s, ParseBeeswaxLog [requiredCols, timeRow ""] = .ok s ∧
      s.totalRecords = 1 ∧ s.totalImpressions = 1) :=
  ⟨(C1_row_tolerance.1 [] [] "BID_TIME").1 rfl,
   C1_row_tolerance.2 requiredCols [timeRow ""] (buildColMap requiredCols)
     rfl (by decide)⟩

/-- C2: A header containing, in any positional order, a token whose ASCII
upper-casing equals each of the 16 required column names (so in particular
every letter-case variant of them) resolves successfully; a header missing
some required column under both the exact and the case-insensitive policy
makes the parse fail, before any data row is considered, with an error
naming a column missing under both policies. -/
theorem C2_schema_resolution :
    (∀ header : List String,
      (∀ c ∈ requiredCols, ∃ t ∈ header, asciiUpper t = c) →
      ∃ cm, resolveColumns header = .ok cm)
  ∧ (∀ header : List String,
      (∃ c ∈ requiredCols, missingBoth header c) →
      ∃ c ∈ requiredCols, missingBoth header c ∧
        ∀ rows : List (List String),
          ParseBeeswaxLog (header :: rows) =
            .error ("required column not found: " ++ c)) := by
  constructor
  · intro header h
    apply resolveRequired_isOk
    intro c hc
    obtain ⟨t, ht, hup⟩ := h c hc
    obtain ⟨p, hp, hpk⟩ := exists_mem_of_amFind_isSome (buildColMap_hasKey ht)
    exact ⟨p, hp, Or.inl (by rw [hpk, hup])⟩
  · intro header h
    obtain ⟨c2, hc2, hmiss, herr⟩ := resolveRequired_isErr header requiredCols
      (buildColMap header) (by decide) (by decide) h
      (fun t ht => buildColMap_hasKey ht)
      (fun p hp => Or.inl (buildColMap_keys_sub hp))
    refine ⟨c2, hc2, hmiss, ?_⟩
    intro rows
    simp only [ParseBeeswaxLog]
    rw [show resolveColumns header = .error c2 from herr]

/-- C2 witness: a fully lower-cased header resolves; dropping the first
required column yields the schema error naming it, before any rows. -/
theorem C2_schema_resolution_witness :
    (∃ cm, resolveColumns (requiredCols.map asciiLower) = .ok cm) ∧
    (∃ c ∈ requiredCols, missingBoth (requiredCols.drop 1) c ∧
      ParseBeeswaxLog [requiredCols.drop 1] =
        .error ("required column not found: " ++ c)) := by
  refine ⟨C2_schema_resolution.1 (requiredCols.map asciiLower) (by decide), ?_⟩
  obtain ⟨c, hc, hmiss, hall⟩ :=
    C2_schema_resolution.2 (requiredCols.drop 1) (by decide)
  exact ⟨c, hc, hmiss, hall []⟩

